import Mathlib

/-!
Verification of the baseball scorebook tabulator (`Main.py`).

The Python source is shallowly embedded below.  Python strings become Lean
`String`s; the string primitives the script relies on (`str.upper`,
`str.split`, `str.split(sep)`, `str.count`, `in`, `str.strip`,
`''.join(filter(str.isdigit, _))`, `"x" * n`) are re-implemented by
structural recursion over `List Char` so that every definition is
executable and kernel-reducible.  Python `dict`s (which preserve insertion
order) become association lists whose update keeps the position of an
existing key and appends a new key at the end.  Fallible code returns
`Except Err`; the distinct runtime failures of the script (uncaught
`IndexError` / `NameError` / `KeyError` / `ValueError`, and the explicit
`sys.exit(1)` on a missing header) are the constructors of `Err`.
-/

namespace Scorebook

/-- Runtime failures of the script. `headerNotFound` models the explicit
`print` + `sys.exit(1)` branch; the others model uncaught Python exceptions. -/
inductive Err where
  | headerNotFound
  | indexError
  | nameError
  | keyError
  | valueError
deriving DecidableEq, Repr

/-! ## Python string primitives -/

/-- Python `str.upper()` (ASCII, which covers the script's inputs). -/
def pyUpper (s : String) : String := String.mk (s.data.map Char.toUpper)

/-- `sub in s` for chars: does `need` occur as a contiguous sublist of `hay`? -/
def containsL (need : List Char) : List Char → Bool
  | [] => need.isPrefixOf []
  | c :: t => need.isPrefixOf (c :: t) || containsL need t

/-- Python `sub in s` (substring test). -/
def strContains (s sub : String) : Bool := containsL sub.data s.data

/-- Whitespace-splitting, auxiliary: `cur` is the current chunk, reversed. -/
def wsSplitAux : List Char → List Char → List (List Char)
  | [], cur => if cur.isEmpty then [] else [cur.reverse]
  | c :: t, cur =>
    if c.isWhitespace then
      if cur.isEmpty then wsSplitAux t [] else cur.reverse :: wsSplitAux t []
    else wsSplitAux t (c :: cur)

/-- Python `str.split()` with no argument: split on whitespace runs,
dropping empty chunks. -/
def pySplit (s : String) : List String := (wsSplitAux s.data []).map String.mk

/-- Split on a (non-empty) separator, fuel-indexed so that the recursion is
structural and kernel-reducible.  The fuel is always at least the length of
the remaining text, so the `0` case is unreachable. -/
def splitSubAux (sep : List Char) : Nat → List Char → List Char → List (List Char)
  | _, [], cur => [cur.reverse]
  | 0, hay, cur => [cur.reverse ++ hay]
  | fuel + 1, h :: t, cur =>
    if sep.isPrefixOf (h :: t) then
      cur.reverse :: splitSubAux sep fuel ((h :: t).drop sep.length) []
    else
      splitSubAux sep fuel t (h :: cur)

/-- Python `s.split(sep)` for a non-empty separator `sep`. -/
def pySplitOn (s sep : String) : List String :=
  (splitSubAux sep.data s.data.length s.data []).map String.mk

/-- `s.split(sep)[i]`; the script only indexes in range, so the default is
never reached on the script's executions. -/
def pySplitOnIdx (s sep : String) (i : Nat) : String := (pySplitOn s sep).getD i ""

/-- Python `s.count(sub)` (non-overlapping occurrences, non-empty `sub`). -/
def pyCount (s sub : String) : Nat := (pySplitOn s sub).length - 1

/-- Python `sep.join(parts)`. -/
def joinSep (sep : String) : List String → String
  | [] => ""
  | [x] => x
  | x :: y :: t => x ++ sep ++ joinSep sep (y :: t)

/-- Python `str.strip()` (trim whitespace at both ends). -/
def pyStrip (s : String) : String :=
  String.mk (((s.data.dropWhile Char.isWhitespace).reverse.dropWhile Char.isWhitespace).reverse)

/-- Python `"x" * n` (string repetition). -/
def strTimes (s : String) : Nat → String
  | 0 => ""
  | n + 1 => s ++ strTimes s n

/-- Python `''.join(filter(str.isdigit, s))`. -/
def digitFilter (s : String) : String := String.mk (s.data.filter Char.isDigit)

/-- Decimal digit character of `n < 10`. -/
def digitChar (n : Nat) : Char := Char.ofNat (48 + n)

/-- Fuel-indexed decimal rendering of a natural number. -/
def natToStrAux : Nat → Nat → List Char
  | 0, _ => []
  | fuel + 1, n => if n < 10 then [digitChar n] else natToStrAux fuel (n / 10) ++ [digitChar (n % 10)]

/-- Python `str(n)` for a natural number. -/
def natToStr (n : Nat) : String := String.mk (natToStrAux (n + 1) n)

/-- Python `int(s)` restricted to the strings the script feeds it: digit-only
keys produced by `digitFilter`.  `int("")` raises `ValueError`, modelled by
`none`. -/
def pyIntNat (s : String) : Option Nat :=
  if s.data.isEmpty then none
  else if s.data.all Char.isDigit then
    some (s.data.foldl (fun a c => a * 10 + (c.toNat - 48)) 0)
  else none

/-- Error-propagating fold (the meaning of a Python `for` loop whose body may
raise): stop at the first failing iteration. -/
def foldE {α σ : Type} (f : σ → α → Except Err σ) : σ → List α → Except Err σ
  | s, [] => .ok s
  | s, x :: t =>
    match f s x with
    | .error e => .error e
    | .ok s1 => foldE f s1 t

/-- Error-propagating map (the meaning of a Python comprehension whose body
may raise). -/
def mapE {α β : Type} (f : α → Except Err β) : List α → Except Err (List β)
  | [] => .ok []
  | x :: t =>
    match f x with
    | .error e => .error e
    | .ok y =>
      match mapE f t with
      | .error e => .error e
      | .ok ys => .ok (y :: ys)

/-- Python `list.index` as an option (first occurrence). -/
def indexOfStr : List String → String → Option Nat
  | [], _ => none
  | x :: t, q => if x = q then some 0 else (indexOfStr t q).map (· + 1)

/-! ## Association lists with Python-`dict` semantics -/

/-- `m[k]` lookup (first binding; keys are unique by construction). -/
def alistGet {β : Type} : List (String × β) → String → Option β
  | [], _ => none
  | (k, v) :: t, q => if k = q then some v else alistGet t q

/-- `m[k] = v`: update in place if present, else append at the end
(Python dicts preserve insertion order). -/
def alistSet {β : Type} : List (String × β) → String → β → List (String × β)
  | [], k, v => [(k, v)]
  | (k0, v0) :: t, k, v => if k0 = k then (k0, v) :: t else (k0, v0) :: alistSet t k v

/-! ## Scorebook conversion functions (`Main.py` lines 31-81) -/

/-- `score_unassisted` (lines 31-37): first matching position abbreviation,
in the dict-literal's insertion order. -/
def score_unassisted (desc : String) : String :=
  if strContains desc "1B" then "3"
  else if strContains desc "2B" then "4"
  else if strContains desc "3B" then "5"
  else if strContains desc "SS" then "6"
  else if strContains desc "LF" then "7"
  else if strContains desc "CF" then "8"
  else if strContains desc "RF" then "9"
  else if strContains desc "P" then "1"
  else if strContains desc "C" then "2"
  else ""

/-- `score_groundout` (lines 39-47): for every whitespace token containing a
hyphen, resolve each hyphen-separated sub-token and keep the non-empty
digits, joined with "-". -/
def score_groundout (desc : String) : String :=
  if desc = "" then ""
  else
    joinSep "-" ((pySplit desc).foldl
      (fun acc w =>
        if strContains w "-" then
          acc ++ ((pySplitOn w "-").map score_unassisted).filter (fun r => r != "")
        else acc) [])

/-- `to_scorebook` (lines 49-81): the ordered keyword dispatch. -/
def to_scorebook (desc : String) : String :=
  if desc = "" then ""
  else
    let foul := strContains desc "FOUL"
    if strContains desc "WALK" then "BB"
    else if strContains desc "HIT BY PITCH" then "HBP"
    else if strContains desc "SACRIFICE" then "SAC"
    else if strContains desc "SINGLE" then "1B"
    else if strContains desc "DOUBLE" then
      (if strContains desc "DOUBLE PLAY" then "GDP " ++ score_groundout desc else "2B")
    else if strContains desc "TRIPLE" then
      (if strContains desc "TRIPLE PLAY" then "GTP " ++ score_groundout desc else "3B")
    else if strContains desc "HOMERS" || strContains desc "HOME RUN" then "HR"
    else if strContains desc "STRIKEOUT" then
      (if strContains desc "LOOKING" then "K*" else "K")
    else if strContains desc "GROUNDOUT" then
      (if strContains desc "UNASSISTED" then score_unassisted desc else score_groundout desc)
    else if strContains desc "LINEOUT" then
      (let v := "L" ++ score_unassisted desc; if foul then v ++ "f" else v)
    else if strContains desc "POPFLY" then
      (let v := "P" ++ score_unassisted desc; if foul then v ++ "f" else v)
    else if strContains desc "FLYBALL" then
      (let v := "F" ++ score_unassisted desc; if foul then v ++ "f" else v)
    else ""

/-- The fixed header line (line 83). -/
def HEADER : String := "Inn,Score,Out,RoB,Pit(cnt),R/O,@Bat,Batter,Pitcher,wWPA,wWE,Play Description"

/-! ## Input normalisation and pinch-hitter map (lines 86-104) -/

/-- `get_input_lines` (lines 86-88) on an abstract line sequence: strip each
line and drop the blank ones. -/
def stripLines (raw : List String) : List String :=
  (raw.map pyStrip).filter (fun l => l != "")

/-- One iteration of the pinch-hitter loop (lines 94-104).  `words[0]` and
`words[1]` exist whenever the phrase occurs; `words[0].split()[-1]` raises an
uncaught `IndexError` when there is no token before the phrase — the
`except ValueError` clause of the source does not catch `IndexError`, and no
statement in the `try` block can raise a `ValueError`. -/
def pinchStep (pm : List (String × String)) (line : String) : Except Err (List (String × String)) :=
  let l := pyUpper line
  if strContains l "PINCH HITS FOR" then
    match (pySplit (pySplitOnIdx l "PINCH HITS FOR" 0)).getLast? with
    | none => .error .indexError
    | some name1 =>
      if (pySplit (pySplitOnIdx l "PINCH HITS FOR" 1)).length > 2 then
        .ok (alistSet pm name1 ((pySplit (pySplitOnIdx l "PINCH HITS FOR" 1)).getD 1 ""))
      else .ok pm
  else .ok pm

/-- The pinch-hitter map built from every input line (lines 93-104). -/
def buildPinchMap (lines : List String) : Except Err (List (String × String)) :=
  foldE pinchStep [] lines

/-! ## CSV parsing and the row filter (lines 113-134) -/

/-- Field-splitting state machine of `csv.reader` for one line (default
dialect: comma delimiter, double-quote quoting, `""` inside a quoted field is
a literal quote).  The script's quoted fields never span lines. -/
def csvFields : List Char → Bool → List Char → List (List Char)
  | [], _, cur => [cur.reverse]
  | '"' :: '"' :: rest, true, cur => csvFields rest true ('"' :: cur)
  | '"' :: rest, true, cur => csvFields rest false cur
  | '"' :: rest, false, cur => csvFields rest true cur
  | ',' :: rest, false, cur => cur.reverse :: csvFields rest false []
  | c :: rest, b, cur => csvFields rest b (c :: cur)

/-- One parsed CSV row (line 114). -/
def parseCsvLine (s : String) : List String := (csvFields s.data false []).map String.mk

/-- Batter-column cleanup (lines 124-128): for a multi-word value, drop the
first word when it starts with an uppercase letter, and re-join with single
spaces. -/
def stripBatter (val : String) : String :=
  let words := pySplit val
  if words.length > 1 then
    let kept := if (words.headD "").data.headD 'a' |>.isUpper then words.drop 1 else words
    joinSep " " kept
  else val

/-- Column selection (lines 119-130): keep indices 0, 6, 7, 11 that are in
range, applying the batter cleanup at index 7. -/
def colSelect (row : List String) : List String :=
  ([0, 6, 7, 11].filter (fun idx => idx < row.length)).map
    (fun idx => if idx = 7 then stripBatter (row.getD idx "") else row.getD idx "")

/-- The row filter (lines 118-134): select columns on every row, then keep
the header plus the data rows whose second column is `'MIL'`.
`filtered_rows[0]` on an empty row list would raise `IndexError` (`none`). -/
def rowFilter (rows : List (List String)) : Option (List (List String)) :=
  match rows.map colSelect with
  | [] => none
  | header :: tail =>
    some (header :: tail.filter (fun r => decide (1 < r.length) && (r.getD 1 "" == "MIL")))

/-! ## The inning accumulator (lines 137-170) -/

/-- `arr`: inning → (batter → accumulated cell), insertion-ordered. -/
abbrev Scoreboard := List (String × List (String × String))

/-- The accumulator state: the scoreboard plus the `sb_player` Python
variable, which leaks across loop iterations and rows (it is `none` until
the first stolen-base event of the run). -/
structure AccState where
  arr : Scoreboard
  sbPlayer : Option String
deriving Repr

/-- Cell lookup `arr[inn][b]`. -/
def lookupCellA (arr : Scoreboard) (inn b : String) : Option String :=
  (alistGet arr inn).bind (fun inner => alistGet inner b)

/-- `if inn not in arr: arr[inn] = {}` (lines 152-153). -/
def ensureInn (arr : Scoreboard) (inn : String) : Scoreboard :=
  if (alistGet arr inn).isSome then arr else alistSet arr inn []

/-- `pinch_map.get(x, x)`: lines 154-155 and 163-164. -/
def resolveName (pm : List (String × String)) (x : String) : String :=
  (alistGet pm x).getD x

/-- The play/RBI cell value (lines 156-160): join with `"; "` when the cell
already holds a non-empty string, then append `", RBI"` once per RBI when the
result is non-empty. -/
def playAppend (prev : Option String) (sh : String) (rbi : Nat) : String :=
  let base :=
    match prev with
    | some p => if p ≠ "" then p ++ "; " ++ sh else sh
    | none => sh
  if base ≠ "" then base ++ strTimes ", RBI" rbi else base

/-- Lines 152-160 as one scoreboard update. -/
def cellPlayUpdate (arr : Scoreboard) (inn b sh : String) (rbi : Nat) : Scoreboard :=
  let arr1 := ensureInn arr inn
  let inner := (alistGet arr1 inn).getD []
  alistSet arr1 inn (alistSet inner b (playAppend (alistGet inner b) sh rbi))

/-- `arr[inn][p] = arr[inn].get(p, "") + mark` (lines 165 and 170). -/
def appendMark (arr : Scoreboard) (inn p mark : String) : Scoreboard :=
  let inner := (alistGet arr inn).getD []
  alistSet arr inn (alistSet inner p ((alistGet inner p).getD "" ++ mark))

/-- Iteration `i` of the stolen-base loop (lines 161-165): runner = last
token before the `i`-th `"STEALS"` boundary, resolved through the pinch map;
the resolved name is stored in the `sb_player` variable. -/
def sbIter (pm : List (String × String)) (desc0 inn : String) (acc : AccState) (i : Nat) :
    Except Err AccState :=
  match (pySplit (pySplitOnIdx desc0 "STEALS" i)).getLast? with
  | none => .error .indexError
  | some nm =>
    let p := resolveName pm nm
    .ok ⟨appendMark acc.arr inn p ", SB", some p⟩

/-- Iteration `j` of the caught-stealing loop (lines 166-170): runner = last
token before the first `"CAUGHT STEALING"`.  When that runner is in the pinch
map the source evaluates `pinch_map[sb_player]` — the stolen-base variable —
which raises `NameError` when `sb_player` was never assigned and `KeyError`
when its value is not a key of the map. -/
def csIter (pm : List (String × String)) (desc0 inn : String) (acc : AccState) (_j : Nat) :
    Except Err AccState :=
  match (pySplit (pySplitOnIdx desc0 "CAUGHT STEALING" 0)).getLast? with
  | none => .error .indexError
  | some nm =>
    match alistGet pm nm with
    | none => .ok ⟨appendMark acc.arr inn nm ", CS", acc.sbPlayer⟩
    | some _ =>
      match acc.sbPlayer with
      | none => .error .nameError
      | some sp =>
        match alistGet pm sp with
        | none => .error .keyError
        | some v => .ok ⟨appendMark acc.arr inn v ", CS", acc.sbPlayer⟩

/-- One iteration of the accumulation loop (lines 141-170).  `a`, `b`, `c`
are `inn_idx`, `batter_idx`, `desc_idx`; the program computes them from its
fixed filtered header, where they are 0, 2 and 3. -/
def accumStep (pm : List (String × String)) (a b c : Nat) (st : AccState) (row : List String) :
    Except Err AccState :=
  if row.length ≤ max a (max b c) then .ok st
  else
    let inn := digitFilter (row.getD a "")
    let batter := pyUpper (row.getD b "")
    let desc0 := pyUpper (row.getD c "")
    let play := pySplitOnIdx desc0 "(" 0
    let rbi := pyCount desc0 "SCORES"
    let sb := pyCount desc0 "STEALS"
    let cs := pyCount desc0 "CAUGHT STEALING"
    let sh := if strContains desc0 (batter ++ " TO ") then "FC" else to_scorebook play
    let arr1 := cellPlayUpdate st.arr inn (resolveName pm batter) sh rbi
    match foldE (sbIter pm desc0 inn) ⟨arr1, st.sbPlayer⟩ (List.range sb) with
    | .error e => .error e
    | .ok st1 => foldE (csIter pm desc0 inn) st1 (List.range cs)

/-! ## The table renderer (lines 172-188) -/

/-- Stable insertion into a list sorted by the numeric component. -/
def insertByNat (x : String × Nat) : List (String × Nat) → List (String × Nat)
  | [] => [x]
  | y :: t => if x.2 ≤ y.2 then x :: y :: t else y :: insertByNat x t

/-- Stable sort by the numeric component (Python's `sorted` with `key=int`). -/
def sortByNat : List (String × Nat) → List (String × Nat)
  | [] => []
  | x :: t => insertByNat x (sortByNat t)

/-- `batters_order` (lines 173-177): first appearance walking innings in
ascending numeric order, then dict insertion order inside an inning. -/
def battersOrder (keys : List String) (arr : Scoreboard) : List String :=
  keys.foldl
    (fun acc k =>
      ((alistGet arr k).getD []).foldl
        (fun acc2 bv => if acc2.contains bv.1 then acc2 else acc2 ++ [bv.1]) acc)
    []

/-- `max` of a non-empty list of naturals (all values are ≥ 0). -/
def listMax (l : List Nat) : Nat := l.foldl max 0

/-- The renderer (lines 172-188): parse every inning key with `int` —
`ValueError` when a key has no digits — sort the keys numerically, compute
the batter order, extend the columns to `max(highest inning, 9)`, and emit
one row per batter. -/
def render (arr : Scoreboard) : Except Err (List (List String)) :=
  match mapE
      (fun k => match pyIntNat k with
        | some n => Except.ok (k, n)
        | none => Except.error Err.valueError)
      (arr.map Prod.fst) with
  | .error e => .error e
  | .ok keyNat =>
    let sortedKeys := (sortByNat keyNat).map Prod.fst
    let batters := battersOrder sortedKeys arr
    let maxInn := if arr.isEmpty then 9 else max (listMax (keyNat.map Prod.snd)) 9
    let cols := (List.range maxInn).map (fun i => natToStr (i + 1))
    .ok (batters.map (fun bt =>
      bt :: cols.map (fun cl => (alistGet ((alistGet arr cl).getD []) bt).getD "")))

/-! ## The whole run (lines 90-188) -/

/-- The whole script on the stripped, non-blank input lines: build the pinch
map, locate the header (`sys.exit(1)` when absent), parse and filter the CSV
rows, fold the accumulator over the data rows, and render the table.  The
result is the `output_rows` grid the script tabulates and prints. -/
def runProgram (lines : List String) : Except Err (List (List String)) :=
  match buildPinchMap lines with
  | .error e => .error e
  | .ok pm =>
    match indexOfStr lines HEADER with
    | none => .error .headerNotFound
    | some i =>
      match rowFilter ((lines.drop i).map parseCsvLine) with
      | none => .error .indexError
      | some filtered =>
        let hdr := filtered.headD []
        match indexOfStr hdr "Inn", indexOfStr hdr "Batter",
            indexOfStr hdr "Play Description" with
        | some a, some b, some c =>
          match foldE (accumStep pm a b c) ⟨[], none⟩ (filtered.drop 1) with
          | .error e => .error e
          | .ok st => render st.arr
        | _, _, _ => .error .valueError

/-- The script applied to raw file lines (`get_input_lines`, lines 86-90). -/
def mainProgram (raw : List String) : Except Err (List (List String)) :=
  runProgram (stripLines raw)

/-! ## Lemmas: association lists -/

theorem alistGet_set_self {β : Type} (m : List (String × β)) (k : String) (v : β) :
    alistGet (alistSet m k v) k = some v := by
  induction m with
  | nil => simp [alistSet, alistGet]
  | cons hd t ih =>
    obtain ⟨k0, v0⟩ := hd
    by_cases hk : k0 = k
    · subst hk; simp [alistSet, alistGet]
    · simp [alistSet, alistGet, hk, ih]

theorem alistGet_set_ne {β : Type} (m : List (String × β)) (k q : String) (v : β)
    (h : k ≠ q) : alistGet (alistSet m k v) q = alistGet m q := by
  induction m with
  | nil => simp [alistSet, alistGet, h]
  | cons hd t ih =>
    obtain ⟨k0, v0⟩ := hd
    by_cases hk : k0 = k
    · subst hk
      simp only [alistSet, if_pos rfl]
      simp [alistGet, h]
    · simp [alistSet, alistGet, hk, ih]

theorem alistGet_set_isSome {β : Type} (m : List (String × β)) (k q : String) (v : β)
    (h : (alistGet m q).isSome = true) : (alistGet (alistSet m k v) q).isSome = true := by
  by_cases hk : k = q
  · subst hk; rw [alistGet_set_self]; rfl
  · rw [alistGet_set_ne _ _ _ _ hk]; exact h

theorem alistGet_isSome_mem {β : Type} (m : List (String × β)) (k : String)
    (h : (alistGet m k).isSome = true) : k ∈ m.map Prod.fst := by
  induction m with
  | nil => simp [alistGet] at h
  | cons hd t ih =>
    obtain ⟨k0, v0⟩ := hd
    by_cases hk : k0 = k
    · subst hk; simp
    · simp only [alistGet, if_neg hk] at h
      simpa using Or.inr (ih h)

theorem alistSet_idem {β : Type} (m : List (String × β)) (k : String) (v : β) :
    alistSet (alistSet m k v) k v = alistSet m k v := by
  induction m with
  | nil => simp [alistSet]
  | cons hd t ih =>
    obtain ⟨k0, v0⟩ := hd
    by_cases hk : k0 = k
    · subst hk; simp [alistSet]
    · simp [alistSet, hk, ih]

theorem alistGet_singleton {β : Type} (k q : String) (v w : β)
    (h : alistGet [(k, v)] q = some w) : w = v := by
  by_cases hk : k = q
  · exact (by simpa [alistGet, hk] using h : v = w).symm
  · simp [alistGet, hk] at h

/-! ## Lemmas: string prefixes -/

theorem isPrefixOf_self (l : List Char) : l.isPrefixOf l = true :=
  List.isPrefixOf_iff_prefix.mpr (List.prefix_refl l)

theorem isPrefixOf_tr {a b c : List Char} (h1 : a.isPrefixOf b = true)
    (h2 : b.isPrefixOf c = true) : a.isPrefixOf c = true :=
  List.isPrefixOf_iff_prefix.mpr
    ((List.isPrefixOf_iff_prefix.mp h1).trans (List.isPrefixOf_iff_prefix.mp h2))

theorem str_prefix_append (v w : String) : v.data.isPrefixOf (v ++ w).data = true := by
  rw [String.data_append]
  exact List.isPrefixOf_iff_prefix.mpr (List.prefix_append _ _)

theorem str_data_nil (s : String) (h : s.data = []) : s = "" := by
  cases s with
  | mk d => cases h; rfl

theorem str_append_ne_left (p q : String) (hp : p ≠ "") : p ++ q ≠ "" := by
  intro h
  apply hp
  have hd : (p ++ q).data = ("" : String).data := by rw [h]
  rw [String.data_append] at hd
  rcases List.append_eq_nil.mp hd with ⟨h1, _⟩
  exact str_data_nil p h1

theorem playAppend_prefix (v sh : String) (rbi : Nat) :
    v.data.isPrefixOf (playAppend (some v) sh rbi).data = true := by
  by_cases hv : v = ""
  · subst hv
    exact List.isPrefixOf_iff_prefix.mpr List.nil_prefix
  · simp only [playAppend, if_pos hv, hv, ne_eq, not_false_eq_true, if_true]
    by_cases hb : v ++ "; " ++ sh ≠ ""
    · rw [if_pos hb, String.append_assoc, String.append_assoc]
      exact str_prefix_append _ _
    · rw [if_neg hb, String.append_assoc]
      exact str_prefix_append _ _

/-! ## Lemmas: scoreboard growth -/

/-- `y` extends `x`: no inning entry is lost, and every existing cell's old
value is a string prefix of its new value. -/
def cellsGrow (x y : Scoreboard) : Prop :=
  (∀ i, (alistGet x i).isSome = true → (alistGet y i).isSome = true) ∧
  (∀ i b v, lookupCellA x i b = some v →
    ∃ w, lookupCellA y i b = some w ∧ v.data.isPrefixOf w.data = true)

theorem cellsGrow_refl (x : Scoreboard) : cellsGrow x x :=
  ⟨fun _ h => h, fun _ _ v hv => ⟨v, hv, isPrefixOf_self _⟩⟩

theorem cellsGrow_trans {x y z : Scoreboard} (h1 : cellsGrow x y) (h2 : cellsGrow y z) :
    cellsGrow x z := by
  refine ⟨fun i hi => h2.1 i (h1.1 i hi), fun i b v hv => ?_⟩
  obtain ⟨w, hw, hp⟩ := h1.2 i b v hv
  obtain ⟨u, hu, hq⟩ := h2.2 i b w hw
  exact ⟨u, hu, isPrefixOf_tr hp hq⟩

theorem ensureInn_get (arr : Scoreboard) (inn : String) :
    alistGet (ensureInn arr inn) inn = some ((alistGet arr inn).getD []) := by
  unfold ensureInn
  cases h : alistGet arr inn with
  | none => simp [h, alistGet_set_self]
  | some x => simp [h]

theorem ensureInn_lookup (arr : Scoreboard) (inn i b : String) :
    lookupCellA (ensureInn arr inn) i b = lookupCellA arr i b := by
  unfold ensureInn
  cases h : alistGet arr inn with
  | some x => simp
  | none =>
    simp only [Option.isSome_none, Bool.false_eq_true, if_false]
    by_cases hi : inn = i
    · subst hi
      unfold lookupCellA
      rw [alistGet_set_self, h]
      simp [alistGet]
    · unfold lookupCellA
      rw [alistGet_set_ne _ _ _ _ hi]

theorem ensureInn_grow (arr : Scoreboard) (inn : String) :
    cellsGrow arr (ensureInn arr inn) := by
  constructor
  · intro i hi
    unfold ensureInn
    cases h : alistGet arr inn with
    | some x => exact hi
    | none => exact alistGet_set_isSome _ _ _ _ hi
  · intro i b v hv
    rw [ensureInn_lookup]
    exact ⟨v, hv, isPrefixOf_self _⟩

theorem ensureInn_isSome (arr : Scoreboard) (inn : String) :
    (alistGet (ensureInn arr inn) inn).isSome = true := by
  rw [ensureInn_get]; rfl

/-- The inner lookup used by the cell updates agrees with `lookupCellA`. -/
theorem getD_inner_lookup (arr : Scoreboard) (inn b : String) :
    alistGet ((alistGet arr inn).getD []) b = lookupCellA arr inn b := by
  cases h : alistGet arr inn with
  | none => simp [lookupCellA, h, alistGet]
  | some inner => simp [lookupCellA, h]

theorem appendMark_lookup_self (arr : Scoreboard) (inn p mark : String) :
    lookupCellA (appendMark arr inn p mark) inn p =
      some ((lookupCellA arr inn p).getD "" ++ mark) := by
  unfold appendMark lookupCellA
  rw [alistGet_set_self]
  simp only [Option.some_bind]
  rw [alistGet_set_self, getD_inner_lookup]
  rfl

theorem appendMark_lookup_ne (arr : Scoreboard) (inn p mark i q : String) (hq : q ≠ p) :
    lookupCellA (appendMark arr inn p mark) i q = lookupCellA arr i q := by
  unfold appendMark
  by_cases hi : inn = i
  · subst hi
    unfold lookupCellA
    rw [alistGet_set_self]
    simp only [Option.some_bind]
    rw [alistGet_set_ne _ _ _ _ (fun h => hq h.symm), getD_inner_lookup, lookupCellA]
  · unfold lookupCellA
    rw [alistGet_set_ne _ _ _ _ hi]

theorem appendMark_inn_isSome (arr : Scoreboard) (inn p mark i : String)
    (h : (alistGet arr i).isSome = true) :
    (alistGet (appendMark arr inn p mark) i).isSome = true := by
  unfold appendMark
  exact alistGet_set_isSome _ _ _ _ h

theorem appendMark_grow (arr : Scoreboard) (inn p mark : String) :
    cellsGrow arr (appendMark arr inn p mark) := by
  constructor
  · intro i hi
    exact appendMark_inn_isSome arr inn p mark i hi
  · intro i b v hv
    by_cases hb : b = p
    · subst hb
      by_cases hi : i = inn
      · subst hi
        rw [appendMark_lookup_self, hv]
        exact ⟨v ++ mark, rfl, str_prefix_append v mark⟩
      · unfold appendMark
        unfold lookupCellA at hv ⊢
        rw [alistGet_set_ne _ _ _ _ (fun h => hi h.symm)]
        exact ⟨v, hv, isPrefixOf_self _⟩
    · rw [appendMark_lookup_ne _ _ _ _ _ _ hb]
      exact ⟨v, hv, isPrefixOf_self _⟩

theorem cellPlayUpdate_lookup (arr : Scoreboard) (inn b sh : String) (rbi : Nat) :
    lookupCellA (cellPlayUpdate arr inn b sh rbi) inn b =
      some (playAppend (lookupCellA arr inn b) sh rbi) := by
  simp only [cellPlayUpdate]
  rw [ensureInn_get]
  simp only [Option.getD_some, lookupCellA]
  rw [alistGet_set_self]
  simp only [Option.some_bind]
  rw [alistGet_set_self, getD_inner_lookup]
  rfl

theorem cellPlayUpdate_lookup_ne (arr : Scoreboard) (inn b sh : String) (rbi : Nat)
    (i q : String) (hq : q ≠ b) :
    lookupCellA (cellPlayUpdate arr inn b sh rbi) i q = lookupCellA arr i q := by
  simp only [cellPlayUpdate]
  by_cases hi : inn = i
  · subst hi
    unfold lookupCellA
    rw [alistGet_set_self]
    simp only [Option.some_bind]
    rw [alistGet_set_ne _ _ _ _ (fun h => hq h.symm), ensureInn_get]
    simp only [Option.getD_some]
    rw [getD_inner_lookup]
    rfl
  · unfold lookupCellA
    rw [alistGet_set_ne _ _ _ _ hi]
    have := ensureInn_lookup arr inn i q
    unfold lookupCellA at this
    exact this

theorem cellPlayUpdate_inn_isSome (arr : Scoreboard) (inn b sh : String) (rbi : Nat) :
    (alistGet (cellPlayUpdate arr inn b sh rbi) inn).isSome = true := by
  simp only [cellPlayUpdate]
  rw [alistGet_set_self]
  rfl

theorem cellPlayUpdate_isSome_other (arr : Scoreboard) (inn b sh : String) (rbi : Nat)
    (i : String) (h : (alistGet arr i).isSome = true) :
    (alistGet (cellPlayUpdate arr inn b sh rbi) i).isSome = true := by
  simp only [cellPlayUpdate]
  apply alistGet_set_isSome
  unfold ensureInn
  cases hg : alistGet arr inn with
  | some x => exact h
  | none => exact alistGet_set_isSome _ _ _ _ h

theorem cellPlayUpdate_grow (arr : Scoreboard) (inn b sh : String) (rbi : Nat) :
    cellsGrow arr (cellPlayUpdate arr inn b sh rbi) := by
  constructor
  · intro i hi
    exact cellPlayUpdate_isSome_other arr inn b sh rbi i hi
  · intro i q v hv
    by_cases hq : q = b
    · subst hq
      by_cases hi : i = inn
      · subst hi
        rw [cellPlayUpdate_lookup, hv]
        exact ⟨_, rfl, playAppend_prefix v sh rbi⟩
      · -- different innings: the update at `inn` does not touch row `i`
        simp only [cellPlayUpdate]
        unfold lookupCellA at hv ⊢
        rw [alistGet_set_ne _ _ _ _ (fun h => hi h.symm)]
        have := ensureInn_lookup arr inn i q
        unfold lookupCellA at this
        rw [this, hv]
        exact ⟨v, rfl, isPrefixOf_self _⟩
    · rw [cellPlayUpdate_lookup_ne _ _ _ _ _ _ _ hq]
      exact ⟨v, hv, isPrefixOf_self _⟩

/-! ## Lemmas: the accumulator iterations -/

theorem sbIter_grow (pm : List (String × String)) (d inn : String) (acc acc' : AccState)
    (i : Nat) (h : sbIter pm d inn acc i = .ok acc') : cellsGrow acc.arr acc'.arr := by
  unfold sbIter at h
  cases hg : (pySplit (pySplitOnIdx d "STEALS" i)).getLast? with
  | none => rw [hg] at h; cases h
  | some nm =>
    rw [hg] at h
    cases h
    exact appendMark_grow _ _ _ _

theorem csIter_grow (pm : List (String × String)) (d inn : String) (acc acc' : AccState)
    (j : Nat) (h : csIter pm d inn acc j = .ok acc') : cellsGrow acc.arr acc'.arr := by
  unfold csIter at h
  split at h
  · cases h
  · split at h
    · cases h
      exact appendMark_grow _ _ _ _
    · split at h
      · cases h
      · split at h
        · cases h
        · cases h
          exact appendMark_grow _ _ _ _

theorem foldE_grow {α : Type} (f : AccState → α → Except Err AccState)
    (hf : ∀ s x s', f s x = .ok s' → cellsGrow s.arr s'.arr) :
    ∀ (l : List α) (s s' : AccState), foldE f s l = .ok s' → cellsGrow s.arr s'.arr := by
  intro l
  induction l with
  | nil => intro s s' h; cases h; exact cellsGrow_refl _
  | cons x t ih =>
    intro s s' h
    unfold foldE at h
    cases hx : f s x with
    | error e => rw [hx] at h; cases h
    | ok s1 =>
      rw [hx] at h
      exact cellsGrow_trans (hf s x s1 hx) (ih s1 s' h)

theorem accumStep_grow (pm : List (String × String)) (a b c : Nat) (st st' : AccState)
    (row : List String) (h : accumStep pm a b c st row = .ok st') :
    cellsGrow st.arr st'.arr := by
  simp only [accumStep] at h
  split at h
  · cases h; exact cellsGrow_refl _
  · split at h
    · cases h
    · rename_i st1 hsb
      exact cellsGrow_trans (cellsGrow_trans (cellPlayUpdate_grow _ _ _ _ _)
        (foldE_grow _ (fun s x s' hx => sbIter_grow _ _ _ s s' x hx) _ _ _ hsb))
        (foldE_grow _ (fun s x s' hx => csIter_grow _ _ _ s s' x hx) _ _ _ h)

/-! ## Lemmas: which cells a step can write -/

/-- When `q` is a substitute (a key of the pinch map) and never an original
(an image of the map), no resolved name equals `q`. -/
theorem resolveName_ne (pm : List (String × String)) (x q : String)
    (hq : (alistGet pm q).isSome = true)
    (himg : ∀ k v, alistGet pm k = some v → v ≠ q) : resolveName pm x ≠ q := by
  unfold resolveName
  cases h : alistGet pm x with
  | none =>
    simp only [Option.getD_none]
    intro hxq
    subst hxq
    rw [h] at hq
    cases hq
  | some v => exact himg x v h

theorem sbIter_avoid (pm : List (String × String)) (d inn : String) (acc acc' : AccState)
    (i : Nat) (q : String) (hq : (alistGet pm q).isSome = true)
    (himg : ∀ k v, alistGet pm k = some v → v ≠ q)
    (h : sbIter pm d inn acc i = .ok acc') :
    ∀ j, lookupCellA acc'.arr j q = lookupCellA acc.arr j q := by
  unfold sbIter at h
  split at h
  · cases h
  · rename_i nm hnm
    cases h
    intro j
    exact appendMark_lookup_ne _ _ _ _ _ _ (Ne.symm (resolveName_ne pm nm q hq himg))

theorem csIter_avoid (pm : List (String × String)) (d inn : String) (acc acc' : AccState)
    (j0 : Nat) (q : String) (hq : (alistGet pm q).isSome = true)
    (himg : ∀ k v, alistGet pm k = some v → v ≠ q)
    (h : csIter pm d inn acc j0 = .ok acc') :
    ∀ j, lookupCellA acc'.arr j q = lookupCellA acc.arr j q := by
  unfold csIter at h
  split at h
  · cases h
  · rename_i nm hnm
    split at h
    · rename_i hpmn
      cases h
      intro j
      refine appendMark_lookup_ne _ _ _ _ _ _ ?_
      intro hqe
      subst hqe
      rw [hpmn] at hq
      cases hq
    · rename_i o hpmn
      split at h
      · cases h
      · rename_i sp hsp
        split at h
        · cases h
        · rename_i v hv
          cases h
          intro j
          exact appendMark_lookup_ne _ _ _ _ _ _ (Ne.symm (himg sp v hv))

theorem foldE_avoid {α : Type} (f : AccState → α → Except Err AccState) (q : String)
    (hf : ∀ s x s', f s x = .ok s' → ∀ j, lookupCellA s'.arr j q = lookupCellA s.arr j q) :
    ∀ (l : List α) (s s' : AccState), foldE f s l = .ok s' →
      ∀ j, lookupCellA s'.arr j q = lookupCellA s.arr j q := by
  intro l
  induction l with
  | nil => intro s s' h j; cases h; rfl
  | cons x t ih =>
    intro s s' h j
    unfold foldE at h
    split at h
    · cases h
    · rename_i s1 hx
      rw [ih s1 s' h j, hf s x s1 hx j]

/-- Under the two hypotheses on `q`, a successful accumulation step never
changes any of `q`'s cells. -/
theorem accumStep_avoid (pm : List (String × String)) (a b c : Nat) (st st' : AccState)
    (row : List String) (q : String) (hq : (alistGet pm q).isSome = true)
    (himg : ∀ k v, alistGet pm k = some v → v ≠ q)
    (h : accumStep pm a b c st row = .ok st') :
    ∀ j, lookupCellA st'.arr j q = lookupCellA st.arr j q := by
  simp only [accumStep] at h
  split at h
  · cases h; intro j; rfl
  · split at h
    · cases h
    · rename_i st1 hsb
      intro j
      rw [foldE_avoid _ q (fun s x s' hx => csIter_avoid pm _ _ s s' x q hq himg hx) _ _ _ h j]
      rw [foldE_avoid _ q (fun s x s' hx => sbIter_avoid pm _ _ s s' x q hq himg hx) _ _ _ hsb j]
      exact cellPlayUpdate_lookup_ne _ _ _ _ _ _ _
        (Ne.symm (resolveName_ne pm (pyUpper (row.getD b "")) q hq himg))

/-- A successful, non-skipped accumulation step leaves a cell at
(digit-filtered inning, pinch-resolved batter). -/
theorem accumStep_records (pm : List (String × String)) (a b c : Nat) (st st' : AccState)
    (row : List String) (hlen : ¬ row.length ≤ max a (max b c))
    (h : accumStep pm a b c st row = .ok st') :
    (lookupCellA st'.arr (digitFilter (row.getD a ""))
      (resolveName pm (pyUpper (row.getD b "")))).isSome = true := by
  simp only [accumStep, if_neg hlen] at h
  split at h
  · cases h
  · rename_i st1 hsb
    have hbase := cellPlayUpdate_lookup st.arr (digitFilter (row.getD a ""))
      (resolveName pm (pyUpper (row.getD b "")))
      (if strContains (pyUpper (row.getD c "")) (pyUpper (row.getD b "") ++ " TO ") then "FC"
       else to_scorebook (pySplitOnIdx (pyUpper (row.getD c "")) "(" 0))
      (pyCount (pyUpper (row.getD c "")) "SCORES")
    have g2 := foldE_grow _ (fun s x s' hx => sbIter_grow _ _ _ s s' x hx) _ _ _ hsb
    have g3 := foldE_grow _ (fun s x s' hx => csIter_grow _ _ _ s s' x hx) _ _ _ h
    obtain ⟨w1, hw1, _⟩ := g2.2 _ _ _ hbase
    obtain ⟨w2, hw2, _⟩ := g3.2 _ _ _ hw1
    rw [hw2]
    rfl

/-- A successful, non-skipped accumulation step leaves an inning entry at the
digit-filtered inning key. -/
theorem accumStep_inn_present (pm : List (String × String)) (a b c : Nat) (st st' : AccState)
    (row : List String) (hlen : ¬ row.length ≤ max a (max b c))
    (h : accumStep pm a b c st row = .ok st') :
    (alistGet st'.arr (digitFilter (row.getD a ""))).isSome = true := by
  have hc := accumStep_records pm a b c st st' row hlen h
  unfold lookupCellA at hc
  cases hg : alistGet st'.arr (digitFilter (row.getD a "")) with
  | none => rw [hg] at hc; cases hc
  | some _ => rfl

/-! ## Lemmas: error classification -/

theorem foldE_error_shape {α σ : Type} (f : σ → α → Except Err σ) (P : Err → Prop)
    (hf : ∀ s x e, f s x = .error e → P e) :
    ∀ (l : List α) (s : σ) (e : Err), foldE f s l = .error e → P e := by
  intro l
  induction l with
  | nil => intro s e h; cases h
  | cons x t ih =>
    intro s e h
    unfold foldE at h
    split at h
    · rename_i e1 hx
      cases h
      exact hf s x e hx
    · exact ih _ e h

theorem mapE_error_shape {α β : Type} (f : α → Except Err β) (P : Err → Prop)
    (hf : ∀ x e, f x = .error e → P e) :
    ∀ (l : List α) (e : Err), mapE f l = .error e → P e := by
  intro l
  induction l with
  | nil => intro e h; cases h
  | cons x t ih =>
    intro e h
    unfold mapE at h
    split at h
    · rename_i e1 hx
      cases h
      exact hf x e hx
    · split at h
      · rename_i y hy e1 ht
        cases h
        exact ih e ht
      · cases h

theorem pinchStep_error (pm : List (String × String)) (l : String) (e : Err)
    (h : pinchStep pm l = .error e) : e = .indexError := by
  simp only [pinchStep] at h
  split at h
  · split at h
    · cases h; rfl
    · split at h <;> cases h
  · cases h

theorem buildPinchMap_error (lines : List String) (e : Err)
    (h : buildPinchMap lines = .error e) : e = .indexError :=
  foldE_error_shape pinchStep (fun x => x = .indexError)
    (fun pm l e1 h1 => pinchStep_error pm l e1 h1) lines [] e h

theorem sbIter_error (pm : List (String × String)) (d inn : String) (acc : AccState)
    (i : Nat) (e : Err) (h : sbIter pm d inn acc i = .error e) : e = .indexError := by
  unfold sbIter at h
  split at h
  · cases h; rfl
  · cases h

theorem csIter_error (pm : List (String × String)) (d inn : String) (acc : AccState)
    (j : Nat) (e : Err) (h : csIter pm d inn acc j = .error e) :
    e = .indexError ∨ e = .nameError ∨ e = .keyError := by
  unfold csIter at h
  split at h
  · cases h; exact Or.inl rfl
  · split at h
    · cases h
    · split at h
      · cases h; exact Or.inr (Or.inl rfl)
      · split at h
        · cases h; exact Or.inr (Or.inr rfl)
        · cases h

theorem accumStep_error (pm : List (String × String)) (a b c : Nat) (st : AccState)
    (row : List String) (e : Err) (h : accumStep pm a b c st row = .error e) :
    e ≠ .headerNotFound ∧ e ≠ .valueError := by
  simp only [accumStep] at h
  split at h
  · cases h
  · split at h
    · rename_i e1 hsb
      cases h
      have := foldE_error_shape _ (fun x => x = Err.indexError)
        (fun s x e2 hx => sbIter_error pm _ _ s x e2 hx) _ _ _ hsb
      subst this
      exact ⟨fun hc => Err.noConfusion hc, fun hc => Err.noConfusion hc⟩
    · rename_i st1 hsb
      have := foldE_error_shape _
        (fun x => x = Err.indexError ∨ x = Err.nameError ∨ x = Err.keyError)
        (fun s x e2 hx => csIter_error pm _ _ s x e2 hx) _ _ _ h
      rcases this with h1 | h1 | h1 <;> subst h1 <;>
        exact ⟨fun hc => Err.noConfusion hc, fun hc => Err.noConfusion hc⟩

theorem render_error (arr : Scoreboard) (e : Err) (h : render arr = .error e) :
    e = .valueError := by
  unfold render at h
  split at h
  · rename_i e1 hmap
    cases h
    refine mapE_error_shape _ (fun x => x = Err.valueError) ?_ _ _ hmap
    intro x e2 hx
    revert hx
    split
    · intro hx; cases hx
    · intro hx; cases hx; rfl
  · cases h

/-! ## Lemmas: list index -/

theorem indexOfStr_none (l : List String) (x : String) (h : x ∉ l) :
    indexOfStr l x = none := by
  induction l with
  | nil => rfl
  | cons y t ih =>
    unfold indexOfStr
    have hy : ¬ y = x := fun he => h (he ▸ List.mem_cons_self y t)
    rw [if_neg hy, ih (fun hm => h (List.mem_cons_of_mem y hm))]
    rfl

theorem indexOfStr_isSome (l : List String) (x : String) (h : x ∈ l) :
    (indexOfStr l x).isSome = true := by
  induction l with
  | nil => cases h
  | cons y t ih =>
    unfold indexOfStr
    by_cases hy : y = x
    · rw [if_pos hy]; rfl
    · rw [if_neg hy]
      have hm : x ∈ t := by
        cases h with
        | head => exact absurd rfl hy
        | tail _ hm => exact hm
      cases hg : indexOfStr t x with
      | none => rw [hg] at ih; cases ih hm
      | some i => rfl

theorem indexOfStr_drop (l : List String) (x : String) :
    ∀ i, indexOfStr l x = some i → l.drop i = x :: l.drop (i + 1) := by
  induction l with
  | nil => intro i h; cases h
  | cons y t ih =>
    intro i h
    unfold indexOfStr at h
    by_cases hy : y = x
    · rw [if_pos hy] at h
      cases h
      subst hy
      rfl
    · rw [if_neg hy] at h
      cases hg : indexOfStr t x with
      | none => rw [hg] at h; cases h
      | some j =>
        rw [hg] at h
        cases h
        simpa using ih j hg

/-! ## Lemmas: the renderer's key parsing -/

theorem mapE_error_mem {α β : Type} (f : α → Except Err β) (e : Err)
    (hall : ∀ y e1, f y = .error e1 → e1 = e) :
    ∀ (l : List α) (x : α), x ∈ l → f x = .error e → mapE f l = .error e := by
  intro l
  induction l with
  | nil => intro x hx; cases hx
  | cons y t ih =>
    intro x hx hfx
    unfold mapE
    cases hy : f y with
    | error e1 =>
      have he : e1 = e := hall y e1 hy
      subst he
      rfl
    | ok v =>
      have hxt : x ∈ t := by
        cases hx with
        | head => rw [hy] at hfx; cases hfx
        | tail _ hm => exact hm
      rw [ih x hxt hfx]

theorem mapE_ok_all {α β : Type} (f : α → Except Err β) :
    ∀ l : List α, (∀ x ∈ l, ∃ y, f x = .ok y) → ∃ ys, mapE f l = .ok ys := by
  intro l
  induction l with
  | nil => exact fun _ => ⟨[], rfl⟩
  | cons x t ih =>
    intro hall
    obtain ⟨y, hy⟩ := hall x (List.mem_cons_self x t)
    obtain ⟨ys, hys⟩ := ih (fun z hz => hall z (List.mem_cons_of_mem x hz))
    refine ⟨y :: ys, ?_⟩
    unfold mapE
    rw [hy, hys]

theorem render_error_of_empty_key (arr : Scoreboard) (h : "" ∈ arr.map Prod.fst) :
    render arr = .error .valueError := by
  unfold render
  have hmap : mapE (fun k => match pyIntNat k with
      | some n => Except.ok (k, n)
      | none => Except.error Err.valueError) (arr.map Prod.fst) =
      .error .valueError := by
    refine mapE_error_mem _ _ ?_ _ "" h ?_
    · intro y e1 hy
      revert hy
      split
      · intro hy; cases hy
      · intro hy; cases hy; rfl
    · rfl
  rw [hmap]

theorem render_ok_of_keys (arr : Scoreboard)
    (h : ∀ k ∈ arr.map Prod.fst, (pyIntNat k).isSome = true) :
    ∃ out, render arr = .ok out := by
  have hall : ∀ x ∈ arr.map Prod.fst, ∃ y,
      (fun k => match pyIntNat k with
        | some n => Except.ok (k, n)
        | none => Except.error Err.valueError) x = Except.ok y := by
    intro x hx
    have hs := h x hx
    cases hp : pyIntNat x with
    | none => rw [hp] at hs; cases hs
    | some n => exact ⟨(x, n), by simp only [hp]⟩
  obtain ⟨ys, hys⟩ := mapE_ok_all _ (arr.map Prod.fst) hall
  unfold render
  rw [hys]
  exact ⟨_, rfl⟩

theorem digitFilter_empty (s : String) (h : s.data.all (fun ch => !ch.isDigit) = true) :
    digitFilter s = "" := by
  unfold digitFilter
  have hf : s.data.filter Char.isDigit = [] := by
    rw [List.filter_eq_nil_iff]
    intro a ha
    have hna := List.all_eq_true.mp h a ha
    simp only [Bool.not_eq_true'] at hna
    simp [hna]
  rw [hf]

/-! ## Lemmas: substring containment -/

theorem containsL_mono (n1 n2 : List Char) (hp : n2.isPrefixOf n1 = true) :
    ∀ hay : List Char, containsL n1 hay = true → containsL n2 hay = true := by
  intro hay
  induction hay with
  | nil =>
    intro h
    have h1 : n1 = [] :=
      List.prefix_nil.mp (List.isPrefixOf_iff_prefix.mp h)
    subst h1
    have h2 : n2 = [] :=
      List.prefix_nil.mp (List.isPrefixOf_iff_prefix.mp hp)
    subst h2
    rfl
  | cons ch t ih =>
    intro h
    unfold containsL at h ⊢
    cases h1 : n1.isPrefixOf (ch :: t) with
    | true =>
      have h2 : n2.isPrefixOf (ch :: t) = true := List.isPrefixOf_iff_prefix.mpr
        ((List.isPrefixOf_iff_prefix.mp hp).trans (List.isPrefixOf_iff_prefix.mp h1))
      rw [h2, Bool.true_or]
    | false =>
      rw [h1, Bool.false_or] at h
      rw [ih h, Bool.or_true]

theorem strContains_mono (d n1 n2 : String) (hp : n2.data.isPrefixOf n1.data = true)
    (h : strContains d n1 = true) : strContains d n2 = true :=
  containsL_mono n1.data n2.data hp d.data h

theorem strContains_ne_empty (d n : String) (hn : n ≠ "") (h : strContains d n = true) :
    d ≠ "" := by
  intro hd
  subst hd
  have h2 : n.data.isPrefixOf [] = true := h
  exact hn (str_data_nil n (List.prefix_nil.mp (List.isPrefixOf_iff_prefix.mp h2)))

/-! ## Lemmas: the row filter applied twice -/

theorem rowFilter_cons (r0 : List String) (rs : List (List String)) :
    rowFilter (r0 :: rs) = some (colSelect r0 ::
      (rs.map colSelect).filter
        (fun r => decide (1 < r.length) && (r.getD 1 "" == "MIL"))) := rfl

theorem colSelect_len_le (r : List String) : (colSelect r).length ≤ 4 := by
  unfold colSelect
  rw [List.length_map]
  exact le_trans (List.length_filter_le _ _) (by norm_num)

theorem colSelect_short (r : List String) (h : r.length ≤ 4) : colSelect r = r.take 1 := by
  unfold colSelect
  cases r with
  | nil => rfl
  | cons x t =>
    simp only [List.length_cons] at h
    have h0 : 0 < t.length + 1 := by omega
    have h6 : ¬ (6 < t.length + 1) := by omega
    have h7 : ¬ (7 < t.length + 1) := by omega
    have h11 : ¬ (11 < t.length + 1) := by omega
    simp [List.filter_cons, h0, h6, h7, h11, List.getD]

theorem rowFilter_twice (rows : List (List String)) (h : List String)
    (t : List (List String)) (hf : rowFilter rows = some (h :: t)) :
    rowFilter (h :: t) = some [h.take 1] := by
  cases rows with
  | nil => cases hf
  | cons r0 rs =>
    rw [rowFilter_cons] at hf
    injection hf with hf
    injection hf with hf1 hf2
    rw [rowFilter_cons]
    have hh : colSelect h = h.take 1 := by
      apply colSelect_short
      rw [← hf1]
      exact colSelect_len_le r0
    have hts : ∀ y ∈ t.map colSelect,
        ¬ ((fun r => decide (1 < r.length) && (r.getD 1 "" == "MIL")) y = true) := by
      intro y hy
      obtain ⟨x, hx, hxy⟩ := List.mem_map.mp hy
      have hx4 : x.length ≤ 4 := by
        have hx0 : x ∈ rs.map colSelect := by
          rw [← hf2] at hx
          exact List.mem_of_mem_filter hx
        obtain ⟨r1, _, hr1⟩ := List.mem_map.mp hx0
        rw [← hr1]
        exact colSelect_len_le r1
      have hylen : y.length ≤ 1 := by
        rw [← hxy, colSelect_short x hx4, List.length_take]
        exact min_le_left _ _
      have hnot : ¬ (1 < y.length) := by omega
      intro hcon
      rw [Bool.and_eq_true] at hcon
      exact hnot (of_decide_eq_true hcon.1)
    rw [List.filter_eq_nil_iff.mpr hts, hh]

/-! ## Lemmas: the pinch map on inputs with one pinch sentence -/

/-- The pinch-hitter sentence of the specification's example. -/
def pinchLine : String := "SMITH PINCH HITS FOR JONES IN THE 7TH"

theorem pinchLine_has_phrase : strContains (pyUpper pinchLine) "PINCH HITS FOR" = true := rfl

theorem pinchStep_skip (pm : List (String × String)) (l : String)
    (h : strContains (pyUpper l) "PINCH HITS FOR" = false) : pinchStep pm l = .ok pm := by
  simp only [pinchStep, h, Bool.false_eq_true, if_false]

/-- On the example sentence, the source stores `words[1].split()[1]`, which is
the token "IN". -/
theorem pinchStep_line (pm : List (String × String)) :
    pinchStep pm pinchLine = .ok (alistSet pm "SMITH" "IN") := rfl

theorem buildPinch_induct (lines : List String) :
    ∀ pm0 : List (String × String),
      (∀ l ∈ lines, strContains (pyUpper l) "PINCH HITS FOR" = true → l = pinchLine) →
      foldE pinchStep pm0 lines =
        .ok (if pinchLine ∈ lines then alistSet pm0 "SMITH" "IN" else pm0) := by
  induction lines with
  | nil => intro pm0 _; rfl
  | cons l t ih =>
    intro pm0 hl
    by_cases hc : strContains (pyUpper l) "PINCH HITS FOR" = true
    · have hll : l = pinchLine := hl l (List.mem_cons_self l t) hc
      subst hll
      have hstep : foldE pinchStep pm0 (pinchLine :: t) =
          foldE pinchStep (alistSet pm0 "SMITH" "IN") t := by
        show (match pinchStep pm0 pinchLine with
          | Except.error e => Except.error e
          | Except.ok s1 => foldE pinchStep s1 t) =
          foldE pinchStep (alistSet pm0 "SMITH" "IN") t
        rw [pinchStep_line]
      rw [hstep, ih _ (fun x hx hcx => hl x (List.mem_cons_of_mem _ hx) hcx)]
      by_cases hm : pinchLine ∈ t
      · simp [hm, alistSet_idem]
      · simp [hm]
    · have hc2 : strContains (pyUpper l) "PINCH HITS FOR" = false := by
        cases hb : strContains (pyUpper l) "PINCH HITS FOR"
        · rfl
        · exact absurd hb hc
      have hne : l ≠ pinchLine := by
        intro he
        subst he
        exact hc pinchLine_has_phrase
      have hstep : foldE pinchStep pm0 (l :: t) = foldE pinchStep pm0 t := by
        simp only [foldE]
        rw [pinchStep_skip pm0 l hc2]
      rw [hstep, ih _ (fun x hx hcx => hl x (List.mem_cons_of_mem _ hx) hcx)]
      have hne2 : pinchLine ≠ l := fun he => hne he.symm
      by_cases hm : pinchLine ∈ t
      · simp [hm, List.mem_cons, hne2]
      · simp [hm, List.mem_cons, hne2]

/-! ## Concrete inputs used by the claims -/

/-- C1/C3/C5 style data rows place the four relevant fields in their schema
columns 0, 6, 7 and 11 of a 12-column CSV row. -/
def linesC1 : List String := [pinchLine, HEADER, "7,,,,,,MIL,Smith,,,,Smith Singles"]

def linesC2 : List String :=
  ["SMITH PINCH HITS FOR C JONES NOW", HEADER, "3,,,,,,MIL,Doe,,,,Smith Caught Stealing 2B."]

def linesC3 : List String :=
  [HEADER, "1,,,,,,MIL,Smith,,,,Smith Singles",
   "1,,,,,,MIL,Jones,,,,Jones Strikes Out Looking"]

/-- The grid the program actually renders on `linesC3`. -/
def gridC3 : List (List String) :=
  [["SMITH", "1B", "", "", "", "", "", "", "", ""],
   ["JONES", "", "", "", "", "", "", "", "", ""]]

def linesC5 : List String :=
  [HEADER, "1,,,,,,MIL,Jones,,,,Jones Singles. Smith Scores. Doe Scores."]

/-- A pinch sentence with no token before the phrase. -/
def badPinchLine : String := "PINCH HITS FOR JONES IN THE 7TH"

/-- A double-play description whose batter name contains "WALK". -/
def cexC4 : String := "WALKER GROUNDS INTO DOUBLE PLAY SS-2B-1B"

def rowsC8 : List (List String) :=
  [["Inn", "Score", "Out", "RoB", "Pit(cnt)", "R/O", "@Bat", "Batter", "Pitcher",
    "wWPA", "wWE", "Play Description"],
   ["1", "a", "b", "c", "d", "e", "MIL", "Smith", "p", "q", "r", "Smith Singles"]]

def filteredC8 : List (List String) :=
  [["Inn", "@Bat", "Batter", "Play Description"], ["1", "MIL", "Smith", "Smith Singles"]]

/-! ## The claims -/

/-- Claim C1 counterexample: on the raw line
"SMITH PINCH HITS FOR JONES IN THE 7TH" the resolver takes the second token
after the phrase, which is "IN", not "JONES": SMITH is registered as a
substitute for "IN", and a later at-bat of batter SMITH is tabulated in a row
labelled IN — not in JONES's cell. -/
theorem C01_counterexample :
    buildPinchMap [pinchLine] = .ok [("SMITH", "IN")]
    ∧ alistGet [(("SMITH" : String), ("IN" : String))] "SMITH" ≠ some "JONES"
    ∧ runProgram linesC1 = .ok [["IN", "", "", "", "", "", "", "1B", "", ""]] :=
  ⟨rfl, by decide, rfl⟩

/-- Claim C1 (amended): the resolver registers SMITH as a substitute for "IN"
(the second token after the phrase in this sentence is "IN", not "JONES");
when this sentence is the only pinch sentence of the input, every successful
accumulation step leaves every SMITH cell untouched, and a non-skipped row
whose batter is SMITH is recorded in IN's cell. -/
theorem C01_amended :
    (∀ (lines : List String) (pm : List (String × String)),
      buildPinchMap lines = .ok pm → pinchLine ∈ lines →
      (∀ l ∈ lines, strContains (pyUpper l) "PINCH HITS FOR" = true → l = pinchLine) →
      pm = [("SMITH", "IN")])
    ∧ (∀ (a b c : Nat) (st st' : AccState) (row : List String),
        accumStep [("SMITH", "IN")] a b c st row = .ok st' →
        (∀ i, lookupCellA st'.arr i "SMITH" = lookupCellA st.arr i "SMITH")
        ∧ (¬ row.length ≤ max a (max b c) → pyUpper (row.getD b "") = "SMITH" →
            (lookupCellA st'.arr (digitFilter (row.getD a "")) "IN").isSome = true)) := by
  constructor
  · intro lines pm hpm hmem honly
    unfold buildPinchMap at hpm
    rw [buildPinch_induct lines [] honly, if_pos hmem] at hpm
    injection hpm with hpm
    exact hpm.symm
  · intro a b c st st' row h
    have hq : (alistGet [(("SMITH" : String), ("IN" : String))] "SMITH").isSome = true := rfl
    have himg : ∀ k v, alistGet [(("SMITH" : String), ("IN" : String))] k = some v →
        v ≠ "SMITH" := by
      intro k v hk
      have hv := alistGet_singleton _ _ _ _ hk
      subst hv
      decide
    constructor
    · exact fun i => accumStep_avoid _ a b c st st' row "SMITH" hq himg h i
    · intro hlen hb
      have hr := accumStep_records _ a b c st st' row hlen h
      rw [hb] at hr
      exact hr

/-- Witness for C01_amended at concrete inputs. -/
theorem C01_amended_witness :
    ([("SMITH", "IN")] : List (String × String)) = [("SMITH", "IN")]
    ∧ (lookupCellA [("7", [("IN", "1B")])] "7" "IN").isSome = true := by
  constructor
  · exact C01_amended.1 [pinchLine] [("SMITH", "IN")] rfl (by decide) (by decide)
  · exact (C01_amended.2 0 2 3 ⟨[], none⟩ ⟨[("7", [("IN", "1B")])], none⟩
      ["7", "MIL", "Smith", "Smith Singles"] rfl).2 (by decide) rfl

/-- Claim C2 (code bug evaluated at a failing input): SMITH is registered as
a pinch hitter for JONES; the row's description contains "CAUGHT STEALING"
with runner SMITH and no "STEALS", so `sb_player` was never assigned; the
caught-stealing handler evaluates `pinch_map[sb_player]` and the run crashes
with a `NameError`, instead of appending ", CS" to JONES's cell as the claim
describes. -/
theorem C02_bug :
    buildPinchMap ["SMITH PINCH HITS FOR C JONES NOW"] = .ok [("SMITH", "JONES")]
    ∧ runProgram linesC2 = .error .nameError :=
  ⟨rfl, rfl⟩

/-- Claim C3 counterexample: on the spec's end-to-end input the rendered grid
gives row JONES the empty string in inning column 1, not "K*" — the
classifier looks for the substring "STRIKEOUT", which does not occur in
"JONES STRIKES OUT LOOKING". -/
theorem C03_counterexample :
    runProgram linesC3 = .ok gridC3 ∧ (gridC3.getD 1 []).getD 1 "" ≠ "K*" :=
  ⟨rfl, by decide⟩

/-- Claim C3 (amended): the program renders a 2-row table with inning columns
1..9 in which row SMITH has "1B" in column 1, row JONES has the empty string
in column 1, and every other cell is empty. -/
theorem C03_amended : runProgram linesC3 = .ok gridC3 := rfl

/-- Claim C4 counterexample: "WALK" is tested before "DOUBLE", so a
double-play description whose text contains "WALK" (here, in the batter name
WALKER) is classified "BB" and does not start with "GDP ". -/
theorem C04_counterexample :
    strContains cexC4 "DOUBLE PLAY" = true ∧ to_scorebook cexC4 = "BB"
    ∧ ("GDP " : String).data.isPrefixOf (to_scorebook cexC4).data = false :=
  ⟨rfl, rfl, by decide⟩

/-- Claim C4 (amended): for every play description containing "DOUBLE PLAY"
and none of the earlier-tested keywords ("WALK", "HIT BY PITCH", "SACRIFICE",
"SINGLE"), the classifier's output is "GDP " followed by the assist chain
built by `score_groundout` (for each whitespace token containing a hyphen,
each hyphen-separated sub-token is resolved to a position digit and the
non-empty digits are joined with "-", in encounter order). -/
theorem C04_amended : ∀ d : String,
    strContains d "DOUBLE PLAY" = true →
    strContains d "WALK" = false →
    strContains d "HIT BY PITCH" = false →
    strContains d "SACRIFICE" = false →
    strContains d "SINGLE" = false →
    to_scorebook d = "GDP " ++ score_groundout d := by
  intro d hdp hw hh hsac hsi
  have hne : d ≠ "" := strContains_ne_empty d "DOUBLE PLAY" (by decide) hdp
  have hd : strContains d "DOUBLE" = true :=
    strContains_mono d "DOUBLE PLAY" "DOUBLE" (by decide) hdp
  simp [to_scorebook, hne, hw, hh, hsac, hsi, hd, hdp]

/-- Witness for C04_amended on a concrete double-play description. -/
theorem C04_amended_witness :
    to_scorebook "GROUNDS INTO DOUBLE PLAY SS-2B" = "GDP 6-4" := by
  rw [C04_amended "GROUNDS INTO DOUBLE PLAY SS-2B" rfl rfl rfl rfl rfl]
  rfl

/-- Claim C5: the play shorthand is appended to the (inning, batter) cell with
"; " exactly when the cell already holds a non-empty string, and ", RBI" is
appended once per occurrence of "SCORES" exactly when the cell is non-empty
after the play append; end to end, "Jones Singles. Smith Scores. Doe Scores."
yields the cell "1B, RBI, RBI" for JONES. -/
theorem C05_cell_append :
    (∀ (arr : Scoreboard) (inn b sh : String) (rbi : Nat),
      lookupCellA (cellPlayUpdate arr inn b sh rbi) inn b =
        some (playAppend (lookupCellA arr inn b) sh rbi))
    ∧ (∀ (p sh : String) (rbi : Nat), p ≠ "" →
        playAppend (some p) sh rbi = p ++ "; " ++ sh ++ strTimes ", RBI" rbi)
    ∧ (∀ (sh : String) (rbi : Nat), sh ≠ "" →
        playAppend none sh rbi = sh ++ strTimes ", RBI" rbi)
    ∧ (∀ (sh : String) (rbi : Nat), playAppend (some "") sh rbi = playAppend none sh rbi)
    ∧ (∀ rbi : Nat, playAppend none "" rbi = "")
    ∧ runProgram linesC5 = .ok [["JONES", "1B, RBI, RBI", "", "", "", "", "", "", "", ""]] := by
  refine ⟨cellPlayUpdate_lookup, ?_, ?_, fun sh rbi => rfl, fun rbi => rfl, rfl⟩
  · intro p sh rbi hp
    simp only [playAppend, if_pos hp]
    rw [if_pos (str_append_ne_left (p ++ "; ") sh (str_append_ne_left p "; " hp))]
  · intro sh rbi hs
    simp only [playAppend]
    rw [if_pos hs]

/-- Witness for C05_cell_append: a non-empty cell gets "; " then two RBIs. -/
theorem C05_witness : playAppend (some "1B") "BB" 2 = "1B; BB, RBI, RBI" := by
  rw [C05_cell_append.2.1 "1B" "BB" 2 (by decide)]
  rfl

/-- Claim C6: when the exact header line does not occur among the input
lines, the run stops with an error before any accumulation and renders no
table (specifically `headerNotFound` when the pinch scan succeeded); when the
header line is present, the run never fails with `headerNotFound`. -/
theorem C06_header_gate :
    (∀ (lines : List String) (pm : List (String × String)),
      HEADER ∉ lines → buildPinchMap lines = .ok pm →
      runProgram lines = .error .headerNotFound)
    ∧ (∀ lines : List String, HEADER ∉ lines → ∃ e, runProgram lines = .error e)
    ∧ (∀ lines : List String, HEADER ∈ lines →
        runProgram lines ≠ .error .headerNotFound) := by
  have part1 : ∀ (lines : List String) (pm : List (String × String)),
      HEADER ∉ lines → buildPinchMap lines = .ok pm →
      runProgram lines = .error .headerNotFound := by
    intro lines pm hnm hpm
    unfold runProgram
    rw [hpm, indexOfStr_none lines HEADER hnm]
  refine ⟨part1, ?_, ?_⟩
  · intro lines hnm
    cases hpm : buildPinchMap lines with
    | error e => exact ⟨e, by unfold runProgram; rw [hpm]⟩
    | ok pm => exact ⟨.headerNotFound, part1 lines pm hnm hpm⟩
  · intro lines hmem hcon
    simp only [runProgram] at hcon
    split at hcon
    · rename_i e hpm
      injection hcon with h2
      have he := buildPinchMap_error lines e hpm
      rw [he] at h2
      exact Err.noConfusion h2
    · rename_i pm hpm
      split at hcon
      · rename_i hidx
        have hs := indexOfStr_isSome lines HEADER hmem
        rw [hidx] at hs
        cases hs
      · rename_i i hidx
        split at hcon
        · injection hcon with h2
          exact Err.noConfusion h2
        · split at hcon
          · rename_i a b c hInn hBat hDesc
            split at hcon
            · rename_i e hfold
              injection hcon with h2
              have he := foldE_error_shape (accumStep pm a b c)
                (fun x => x ≠ Err.headerNotFound ∧ x ≠ Err.valueError)
                (fun s x e2 hx => accumStep_error pm a b c s x e2 hx) _ _ _ hfold
              exact he.1 h2
            · exact absurd (render_error _ _ hcon) (by decide)
          all_goals (injection hcon with h2; exact Err.noConfusion h2)

/-- Witness for C06_header_gate at concrete inputs. -/
theorem C06_witness :
    runProgram ["no header here"] = .error .headerNotFound
    ∧ runProgram [HEADER] ≠ .error .headerNotFound := by
  constructor
  · exact C06_header_gate.1 ["no header here"] [] (by decide) rfl
  · exact C06_header_gate.2.2 [HEADER] (by decide)

/-- Claim C7 (code bug evaluated at a failing input): on a line that contains
"PINCH HITS FOR" with no token before the phrase, `words[0].split()[-1]`
raises an `IndexError`; the `except ValueError` clause does not catch it
(nothing in the `try` block can raise a `ValueError`), so the run fails
instead of skipping the malformed line. -/
theorem C07_bug :
    buildPinchMap [badPinchLine] = .error .indexError
    ∧ runProgram [badPinchLine, HEADER] = .error .indexError :=
  ⟨rfl, rfl⟩

/-- Claim C8 counterexample: the row filter is not idempotent.  On the header
plus one MIL row it returns a 4-column table; applied a second time it keeps
only the first column of the header (the indices 6, 7, 11 are out of range)
and drops the data row (its one remaining column fails the length test). -/
theorem C08_counterexample :
    rowFilter rowsC8 = some filteredC8 ∧ rowFilter filteredC8 ≠ some filteredC8 :=
  ⟨rfl, by decide⟩

/-- Claim C8 (amended): the row filter is not idempotent; a second
application to any output of a first application truncates the header to its
first column and drops every data row, yielding the one-row table
`[header.take 1]`. -/
theorem C08_amended : ∀ (rows : List (List String)) (h : List String)
    (t : List (List String)), rowFilter rows = some (h :: t) →
    rowFilter (h :: t) = some [h.take 1] :=
  rowFilter_twice

/-- Witness for C08_amended at the concrete filtered table. -/
theorem C08_amended_witness : rowFilter filteredC8 = some [["Inn"]] :=
  C08_amended rowsC8 ["Inn", "@Bat", "Batter", "Play Description"]
    [["1", "MIL", "Smith", "Smith Singles"]] rfl

/-- Claim C9: during accumulation, scoreboard cells only grow — a successful
accumulation step never removes an inning entry, and for every cell that
existed before the step the old string is a prefix of the new string. -/
theorem C09_cells_grow : ∀ (pm : List (String × String)) (a b c : Nat)
    (st st' : AccState) (row : List String),
    accumStep pm a b c st row = .ok st' →
    (∀ i, (alistGet st.arr i).isSome = true → (alistGet st'.arr i).isSome = true)
    ∧ (∀ i k v, lookupCellA st.arr i k = some v →
        ∃ w, lookupCellA st'.arr i k = some w ∧ v.data.isPrefixOf w.data = true) :=
  fun pm a b c st st' row h => accumStep_grow pm a b c st st' row h

/-- Witness for C09_cells_grow: an existing cell "x" grows to "x; 1B". -/
theorem C09_witness :
    ∃ w, lookupCellA [("1", [("A", "x; 1B")])] "1" "A" = some w ∧
      ("x" : String).data.isPrefixOf w.data = true :=
  (C09_cells_grow [] 0 2 3 ⟨[("1", [("A", "x")])], none⟩
    ⟨[("1", [("A", "x; 1B")])], none⟩ ["1", "MIL", "A", "A Singles"] rfl).2 "1" "A" "x" rfl

/-- Claim C10: the renderer fails with a `ValueError` whenever the empty
inning key is present (`int("")`), it succeeds whenever every inning key
parses, and a retained (non-skipped) row whose raw inning field contains no
digit produces the empty key, after which rendering fails instead of
producing a table. -/
theorem C10_render_total :
    (∀ arr : Scoreboard, "" ∈ arr.map Prod.fst → render arr = .error .valueError)
    ∧ (∀ arr : Scoreboard, (∀ k ∈ arr.map Prod.fst, (pyIntNat k).isSome = true) →
        ∃ out, render arr = .ok out)
    ∧ (∀ (pm : List (String × String)) (a b c : Nat) (st st' : AccState)
        (row : List String),
        accumStep pm a b c st row = .ok st' →
        ¬ row.length ≤ max a (max b c) →
        (row.getD a "").data.all (fun ch => !ch.isDigit) = true →
        render st'.arr = .error .valueError) := by
  refine ⟨render_error_of_empty_key, render_ok_of_keys, ?_⟩
  intro pm a b c st st' row h hlen hdig
  apply render_error_of_empty_key
  have hkey := accumStep_inn_present pm a b c st st' row hlen h
  rw [digitFilter_empty _ hdig] at hkey
  exact alistGet_isSome_mem _ _ hkey

/-- Witness for C10_render_total on a scoreboard with the empty inning key. -/
theorem C10_witness : render [("", [])] = .error .valueError :=
  C10_render_total.1 [("", [])] (by decide)

end Scorebook
